import Mathlib

/-!
Shallow embedding of the prezi scale-contest evaluator
(src/2013-fall-evaluator.py and src/evaluator.py).

Times are unix timestamps in integer seconds; the embedding models every
time-valued quantity (timestamps, job durations, `busy_till`, the billing
arithmetic) as an integer.  The Python source parses job durations as
floats, but every operation it performs on them (max, +, -, %, comparison,
and the final ceiling of a quotient) is exact arithmetic, so on the
integer-valued inputs of this development Python's floats and these
integers compute identically.  `billed` is an integer count of units.

Python's `%` has the sign of the divisor on ints as well as on floats,
which is `Int.fmod`; `int(math.ceil(float(a) / b))` on integers is the
ceiling division `-((-a).ediv b)` (both facts are proved against Mathlib's
`Int.emod` / `⌈·⌉` below).

All recursive functions are structurally recursive on an explicit bound
that is exactly sufficient (each loop's iteration count is bounded by the
value passed), so every definition evaluates by kernel reduction.
-/

namespace ScaleContest

/-- Python's `%`: the remainder takes the sign of the divisor
(floor-division remainder), i.e. `Int.fmod`. -/
def pymod (x y : ℤ) : ℤ := Int.fmod x y

/-- Python's `int(math.ceil(float(a) / b))` for integers `a`, `b > 0`:
ceiling division, as floor division of the negation. -/
def ceilDiv (a b : ℤ) : ℤ := -((-a).ediv b)

/-- Machine.BILLING_UNIT: VMs are billed by the hour (3600 seconds). -/
def BILLING_UNIT : ℤ := 3600

/-- Machine.MACHINE_INACTIVE: boot delay of 120 seconds. -/
def MACHINE_INACTIVE : ℤ := 120

/-- One virtual machine (class Machine, identical in both evaluator files).
The uuid field is used only for trace output and is omitted. -/
structure Machine where
  active_from : ℤ
  busy_till : ℤ
  terminated : Bool
deriving DecidableEq

/-- Machine.__init__: `active_from = booted + MACHINE_INACTIVE`,
`busy_till = 0`, `terminated = False`. -/
def Machine.mk0 (booted : ℤ) : Machine :=
  { active_from := booted + MACHINE_INACTIVE, busy_till := 0, terminated := false }

/-- Machine.running_since: `active_from - MACHINE_INACTIVE`. -/
def Machine.running_since (m : Machine) : ℤ := m.active_from - MACHINE_INACTIVE

/-- Machine.till_billing: `abs((now - running_since) % -BILLING_UNIT)`. -/
def Machine.till_billing (m : Machine) (now : ℤ) : ℤ :=
  |pymod (now - m.running_since) (-BILLING_UNIT)|

/-- Machine.is_active: `now >= active_from and busy_till <= now`. -/
def Machine.is_active (m : Machine) (now : ℤ) : Bool :=
  decide (m.active_from ≤ now) && decide (m.busy_till ≤ now)

/-- Machine.job_runtime: `max(active_from, busy_till, timestamp) + length`. -/
def Machine.job_runtime (m : Machine) (timestamp length : ℤ) : ℤ :=
  max (max m.active_from m.busy_till) timestamp + length

/-- Machine.take_job: `busy_till = job_runtime(timestamp, length)`
(the 2013-fall evaluator's assignment). -/
def Machine.take_job (m : Machine) (timestamp length : ℤ) : Machine :=
  { m with busy_till := m.job_runtime timestamp length }

/-- Machine.__cmp__ as a strict order at simulation time `now`:
machines compare by `till_billing(world.now)`. -/
def machineLt (now : ℤ) (a b : Machine) : Bool :=
  decide (a.till_billing now < b.till_billing now)

/-- One job event (class Job).  The guid is used only for trace output and
is omitted; heap comparisons between jobs use only the timestamp
(Event.__cmp__). -/
structure Job where
  ts : ℤ
  dur : ℤ
deriving DecidableEq

/-- Event.__cmp__ restricted to jobs: compare by timestamp. -/
def jobLt (a b : Job) : Bool := decide (a.ts < b.ts)

/-! CPython's `heapq` algorithms, on lists.  `List.set`/`List.getD` model
index assignment and access; all positions touched are in range in every
use below, and `List.set` preserves length regardless.  The structural
fuel of each sift loop is the loop's entry position (resp. `endpos`),
which bounds its iteration count: `_siftdown` strictly decreases `pos`
towards `startpos ≥ 0` each iteration, and `_siftup` strictly increases
`pos` below `endpos` each iteration. -/

/-- heapq._siftdown: walk `newitem` up from `pos` towards `startpos`,
moving larger parents down. -/
def siftdown (lt : α → α → Bool) (newitem : α) (startpos : ℕ) :
    ℕ → List α → ℕ → List α
  | 0, heap, pos => heap.set pos newitem
  | fuel + 1, heap, pos =>
    if startpos < pos then
      let parentpos := (pos - 1) / 2
      let parent := heap.getD parentpos newitem
      if lt newitem parent then
        siftdown lt newitem startpos fuel (heap.set pos parent) parentpos
      else
        heap.set pos newitem
    else
      heap.set pos newitem

/-- heapq.heappush: append then sift down from the last position. -/
def heappush (lt : α → α → Bool) (heap : List α) (item : α) : List α :=
  siftdown lt item 0 heap.length (heap ++ [item]) heap.length

/-- heapq._siftup's child-promotion loop: bubble the hole at `pos` down to
a leaf, moving the smaller child up each step; returns the final hole
position together with the list. -/
def siftupLoop (lt : α → α → Bool) (endpos : ℕ) (newitem : α) :
    ℕ → List α → ℕ → List α × ℕ
  | 0, heap, pos => (heap, pos)
  | fuel + 1, heap, pos =>
    if 2 * pos + 1 < endpos then
      let childpos :=
        if 2 * pos + 2 < endpos
            && !(lt (heap.getD (2 * pos + 1) newitem) (heap.getD (2 * pos + 2) newitem)) then
          2 * pos + 2
        else
          2 * pos + 1
      siftupLoop lt endpos newitem fuel (heap.set pos (heap.getD childpos newitem)) childpos
    else
      (heap, pos)

/-- heapq._siftup: promote children into the hole at `pos` down to a leaf,
then sift the saved item up from there. -/
def siftup (lt : α → α → Bool) (heap : List α) (pos : ℕ) : List α :=
  match heap.get? pos with
  | none => heap
  | some newitem =>
    let p := siftupLoop lt heap.length newitem heap.length heap pos
    siftdown lt newitem pos p.2 p.1 p.2

/-- heapq.heappop: pop the last element; if the heap is still non-empty,
move it to the root and sift up.  Returns `none` on an empty heap (CPython
raises IndexError; every call below is guarded by a non-emptiness test). -/
def heappop (lt : α → α → Bool) (heap : List α) : Option (α × List α) :=
  match heap.getLast? with
  | none => none
  | some lastelt =>
    let rest := heap.dropLast
    if rest.isEmpty then
      some (lastelt, [])
    else
      some (rest.headD lastelt, siftup lt (rest.set 0 lastelt) 0)

/-- heapq.nsmallest(1, ·) via Python's `min`: index of the first minimal
element of the list in iteration order (`min` replaces the current best
only on strict `<`). -/
def argminAux (lt : α → α → Bool) : List α → α → ℕ → ℕ → ℕ
  | [], _, besti, _ => besti
  | y :: ys, best, besti, i =>
    if lt y best then argminAux lt ys y i (i + 1)
    else argminAux lt ys best besti (i + 1)

/-- Index of the first minimal element (`heapq.nsmallest(1, l)` picks this
element); `none` on the empty list. -/
def argmin (lt : α → α → Bool) : List α → Option ℕ
  | [] => none
  | x :: xs => some (argminAux lt xs x 0 1)

/-- list.remove with Machine.__cmp__-equality: drop the first element whose
`till_billing(now)` equals that of `m`.  (CPython raises ValueError when no
element matches; in every call below the removed machine is itself a member
of the list, so a match always exists.) -/
def removeByKey (now : ℤ) : List Machine → Machine → List Machine
  | [], _ => []
  | e :: es, m =>
    if e.till_billing now = m.till_billing now then es
    else e :: removeByKey now es m

/-- Set `terminated := True` on the machine at index `i`. -/
def markTerminated (lst : List Machine) (i : ℕ) : List Machine :=
  match lst.get? i with
  | none => lst
  | some m => lst.set i { m with terminated := true }

/-- Pointwise update of a category-indexed field. -/
def updFn [DecidableEq κ] (f : κ → β) (k : κ) (v : β) : κ → β :=
  fun x => if x = k then v else f x

/-- Class State's data, parameterized by the category index type (the two
evaluator files differ only in the three category names).  `trial` is
`None` until the first event latches it. -/
structure State (κ : Type) where
  time : ℤ
  billed : ℤ
  trial : Option ℤ
  overwait : Bool
  jobs : κ → List Job
  machines : κ → List Machine

/-- Python 2 comparison `now > self.trial` (None compares below every
number). -/
def gtTrial (now : ℤ) (trial : Option ℤ) : Bool :=
  match trial with
  | none => true
  | some t => decide (t < now)

/-- Python 2 comparison `ts >= self.trial`. -/
def geTrial (ts : ℤ) (trial : Option ℤ) : Bool :=
  match trial with
  | none => true
  | some t => decide (t ≤ ts)

/-- Python 2 `max(self.trial, x)` (None compares below every number). -/
def maxTrial (trial : Option ℤ) (x : ℤ) : ℤ :=
  match trial with
  | none => x
  | some t => max t x

/-- State.now setter: set the clock; latch `trial = time + trialEnds` on the
first call. -/
def setNow (trialEnds : ℤ) (s : State κ) (t : ℤ) : State κ :=
  match s.trial with
  | none => { s with time := t, trial := some (t + trialEnds) }
  | some _ => { s with time := t }

/-- State.bill_it (identical in both evaluator files): charge one machine
if `now > trial`. -/
def bill_it (s : State κ) (m : Machine) : State κ :=
  if gtTrial s.time s.trial then
    let when_stops := max s.time m.busy_till
    let billing_start := maxTrial s.trial m.running_since
    let billing_end := maxTrial s.trial (when_stops + m.till_billing when_stops)
    { s with billed := s.billed + ceilDiv (billing_end - billing_start) BILLING_UNIT }
  else s

/-- State.bill's category branch (the only branch either file ever calls):
bill every machine whose `terminated` flag is set, then remove each of them
from the pool by `list.remove` (value equality = Machine.__cmp__ == 0). -/
def billCat [DecidableEq κ] (s : State κ) (cat : κ) : State κ :=
  let lst := s.machines cat
  let all_terminated := lst.filter (fun m => m.terminated)
  let s1 := all_terminated.foldl bill_it s
  let lst1 := all_terminated.foldl (removeByKey s.time) lst
  { s1 with machines := updFn s1.machines cat lst1 }

/-- State.terminate on the machine at index `i` of the category's pool:
mark it terminated, then `bill(category)`. -/
def terminateAt [DecidableEq κ] (s : State κ) (cat : κ) (i : ℕ) : State κ :=
  billCat { s with machines := updFn s.machines cat (markTerminated (s.machines cat) i) } cat

/-- An input event (class Job or class Command), already parsed.  Command
words other than `launch`/`terminate` never reach the engine from the two
regexes' callers in a meaningful way and are not modelled. -/
inductive CmdKind
  | launch
  | terminate
deriving DecidableEq

/-- A typed input event. -/
inductive Ev (κ : Type)
  | job (ts dur : ℤ) (cat : κ)
  | cmd (ts : ℤ) (k : CmdKind) (cat : κ)

/-- State.evaluate's termination loop `for machine in self.machines[category]:
self.terminate(machine, category)`: a CPython list iterator holds an index
and re-checks it against the CURRENT length each step, while `terminate`
(via `bill`) removes elements from the same list.  `fuel` bounds the
iteration count: each step increases `i` by 1 and never lengthens the
list, so `initial length - i` steps always suffice, and when fuel runs out
the loop condition `i < length` is false. -/
def drainLoop [DecidableEq κ] (cat : κ) : ℕ → State κ → ℕ → State κ
  | 0, s, _ => s
  | fuel + 1, s, i =>
    if i < (s.machines cat).length then
      drainLoop cat fuel (terminateAt s cat i) (i + 1)
    else s

namespace Fall2013

/-- State.FREE_QUEUE_TIME. -/
def FREE_QUEUE_TIME : ℤ := 5

/-- State.MAX_QUEUE_TIME. -/
def MAX_QUEUE_TIME : ℤ := 120

/-- State.TRIAL_ENDS: `0` in the 2013-fall file (the 24-hour value is
commented out). -/
def TRIAL_ENDS : ℤ := 0

/-- State.calculate_penalty:
`max(int(math.ceil(3.0 * (overrun - FREE_QUEUE_TIME) / MAX_QUEUE_TIME)), 0)`. -/
def calculate_penalty (overrun : ℤ) : ℤ :=
  max (ceilDiv (3 * (overrun - FREE_QUEUE_TIME)) MAX_QUEUE_TIME) 0

/-- First dispatch pass of State.process_events: scan the pool in list
order for machines active at `job.timestamp + FREE_QUEUE_TIME`, keeping
the (rate, index) with strictly smaller
`till_billing(job_runtime(timestamp, duration))`. -/
def findBestFree (job : Job) : List Machine → ℕ → Option (ℤ × ℕ) → Option (ℤ × ℕ)
  | [], _, best => best
  | m :: ms, i, best =>
    let best1 :=
      if m.is_active (job.ts + FREE_QUEUE_TIME) then
        let rate := m.till_billing (m.job_runtime job.ts job.dur)
        match best with
        | none => some (rate, i)
        | some p => if rate < p.1 then some (rate, i) else some p
      else best
    findBestFree job ms (i + 1) best1

/-- Second dispatch pass of State.process_events: scan the pool in list
order for machines active at `job.timestamp + MAX_QUEUE_TIME`, keeping the
(start_time, index) with strictly smaller `job_runtime(timestamp, 0)`. -/
def findBestPenalty (job : Job) : List Machine → ℕ → Option (ℤ × ℕ) → Option (ℤ × ℕ)
  | [], _, best => best
  | m :: ms, i, best =>
    let best1 :=
      if m.is_active (job.ts + MAX_QUEUE_TIME) then
        let start_time := m.job_runtime job.ts 0
        match best with
        | none => some (start_time, i)
        | some p => if start_time < p.1 then some (start_time, i) else some p
      else best
    findBestPenalty job ms (i + 1) best1

/-- The assignment arm of State.process_events' loop body: the chosen
machine takes the job, then the penalty for the recorded overrun is added
to `billed` when it is positive and `now > trial`. -/
def assignJob [DecidableEq κ] (s : State κ) (cat : κ) (i : ℕ) (overrun : ℤ)
    (job : Job) : State κ :=
  match (s.machines cat).get? i with
  | none => s
  | some m =>
    let s1 := { s with
      machines := updFn s.machines cat ((s.machines cat).set i (m.take_job job.ts job.dur)) }
    let penalty := calculate_penalty overrun
    if 0 < penalty && gtTrial s1.time s1.trial then
      { s1 with billed := s1.billed + penalty }
    else s1

/-- The body of State.process_events for one popped job: both dispatch
passes, then either the assignment arm (first pass records overrun 0, the
second records `start_time - job.timestamp`), or the no-machine arm, which
assigns `overwait = job.timestamp >= trial` and calls `sys.exit(1)`
(modelled as `none`) when it is true. -/
def dispatchOne [DecidableEq κ] (s : State κ) (cat : κ) (job : Job) :
    Option (State κ) :=
  match findBestFree job (s.machines cat) 0 none with
  | some p => some (assignJob s cat p.2 0 job)
  | none =>
    match findBestPenalty job (s.machines cat) 0 none with
    | some p => some (assignJob s cat p.2 (p.1 - job.ts) job)
    | none =>
      let ow := geTrial job.ts s.trial
      if ow then none else some { s with overwait := false }

/-- State.process_events' `while self.jobs[category]:` loop.  Each
iteration pops exactly one job and `dispatchOne` never touches the queue,
so `fuel = initial queue length` gives exactly the iterations the loop
performs, and at fuel 0 the queue is empty (the loop's exit condition). -/
def processLoop [DecidableEq κ] (cat : κ) : ℕ → State κ → Option (State κ)
  | 0, s => some s
  | fuel + 1, s =>
    match heappop jobLt (s.jobs cat) with
    | none => some s
    | some p =>
      let s1 := { s with jobs := updFn s.jobs cat p.2 }
      match dispatchOne s1 cat p.1 with
      | none => none
      | some s2 => processLoop cat fuel s2

/-- State.process_events. -/
def process_events [DecidableEq κ] (cat : κ) (s : State κ) : Option (State κ) :=
  processLoop cat (s.jobs cat).length s

/-- State.receive of the 2013-fall file.  On a launch command the new
machine is pushed into the pool FIRST and `process_events` runs after; a
terminate command picks `heapq.nsmallest(1, pool)` after the dispatch
pass. -/
def receive [DecidableEq κ] (s : State κ) (e : Ev κ) : Option (State κ) :=
  match e with
  | .job ts dur cat =>
    let s1 := setNow TRIAL_ENDS s ts
    let s2 := { s1 with jobs := updFn s1.jobs cat (heappush jobLt (s1.jobs cat) ⟨ts, dur⟩) }
    process_events cat s2
  | .cmd ts k cat =>
    let s1 := setNow TRIAL_ENDS s ts
    let s2 :=
      if k = CmdKind.launch then
        let pool := heappush (machineLt s1.time) (s1.machines cat) (Machine.mk0 ts)
        { s1 with machines := updFn s1.machines cat pool }
      else s1
    match process_events cat s2 with
    | none => none
    | some s3 =>
      if k = CmdKind.terminate then
        match argmin (machineLt s3.time) (s3.machines cat) with
        | none => some s3
        | some i => some (terminateAt s3 cat i)
      else some s3

/-- The three categories of the 2013-fall file. -/
inductive Cat
  | url
  | default
  | export
deriving DecidableEq

/-- State.__init__. -/
def initState : State Cat :=
  { time := 0, billed := 0, trial := none, overwait := false,
    jobs := fun _ => [], machines := fun _ => [] }

/-- State.evaluate: for each category in the fixed order, one final
dispatch pass, then the (mutating-iteration) termination loop; return -1
as soon as `overwait` is seen, else the billed total. -/
def evalCats [DecidableEq κ] : List κ → State κ → Option ℤ
  | [], s => some s.billed
  | c :: cs, s =>
    match process_events c s with
    | none => none
    | some s1 =>
      let s2 := drainLoop c ((s1.machines c).length) s1 0
      if s2.overwait then some (-1) else evalCats cs s2

/-- State.evaluate of the 2013-fall file. -/
def evaluate (s : State Cat) : Option ℤ :=
  evalCats [Cat.default, Cat.export, Cat.url] s

/-- The event loop of evaluate_submission_output: feed events one at a
time, stopping early once `overwait` is set (a `sys.exit(1)` inside
`receive` aborts the whole run: `none`). -/
def runEvents : List (Ev Cat) → State Cat → Option (State Cat)
  | [], s => some s
  | e :: es, s =>
    match receive s e with
    | none => none
    | some s1 => if s1.overwait then some s1 else runEvents es s1

/-- evaluate_submission_output's numeric result: run all events from the
initial state, then State.evaluate. -/
def evalSubmission (evts : List (Ev Cat)) : Option ℤ :=
  (runEvents evts initState).bind evaluate

end Fall2013

namespace Spring

/-- State.TRIAL_ENDS of src/evaluator.py: 24 hours. -/
def TRIAL_ENDS : ℤ := 24 * 60 * 60

/-- State.MAX_QUEUE_TIME of src/evaluator.py: 5 seconds. -/
def MAX_QUEUE_TIME : ℤ := 5

/-- The three categories of src/evaluator.py. -/
inductive SCat
  | url
  | general
  | export
deriving DecidableEq

/-- The job assignment of src/evaluator.py's process_events:
`machine.busy_till = max(machine.busy_till, job.timestamp) + job.elapsed`
(no `active_from` in the max, unlike Machine.take_job of the 2013 file). -/
def assign (m : Machine) (timestamp elapsed : ℤ) : Machine :=
  { m with busy_till := max m.busy_till timestamp + elapsed }

/-- First index `i` (into the given list) with `is_active(t)`; `none` when
no element qualifies (the `for ... else` arm). -/
def findFirstActive (t : ℤ) : List Machine → ℕ → Option ℕ
  | [], _ => none
  | m :: ms, i => if m.is_active t then some i else findFirstActive t ms (i + 1)

/-- The body of src/evaluator.py's process_events for one popped job:
State.rnd_machine scans the pool cyclically from `rnd_start =
random.randrange(n)`; the first machine active at `timestamp +
MAX_QUEUE_TIME` takes the job, else `overwait = job.timestamp > trial`.
`c` is the value drawn from the random source (`c % n` ranges over exactly
`randrange(n)`'s outcomes as `c` does, and `n = 1` forces index 0 exactly
as `randrange(1)` does); `randrange(0)` on an empty pool raises
ValueError, modelled as `none`. -/
def dispatchOne [DecidableEq κ] (c : ℕ) (s : State κ) (cat : κ) (job : Job) :
    Option (State κ) :=
  let lst := s.machines cat
  let n := lst.length
  if n = 0 then none
  else
    let start := c % n
    let rot := lst.drop start ++ lst.take start
    match findFirstActive (job.ts + MAX_QUEUE_TIME) rot 0 with
    | none => some { s with overwait := gtTrial job.ts s.trial }
    | some j =>
      let idx := (start + j) % n
      match lst.get? idx with
      | none => some s
      | some m =>
        some { s with machines := updFn s.machines cat (lst.set idx (assign m job.ts job.dur)) }

/-- src/evaluator.py's process_events loop; `rnds` supplies the values the
random source would draw, one per popped job.  Fuel as in
`Fall2013.processLoop`. -/
def processLoop [DecidableEq κ] (cat : κ) :
    ℕ → State κ → List ℕ → Option (State κ × List ℕ)
  | 0, s, rnds => some (s, rnds)
  | fuel + 1, s, rnds =>
    match heappop jobLt (s.jobs cat) with
    | none => some (s, rnds)
    | some p =>
      let s1 := { s with jobs := updFn s.jobs cat p.2 }
      match dispatchOne (rnds.headD 0) s1 cat p.1 with
      | none => none
      | some s2 => processLoop cat fuel s2 rnds.tail

/-- State.process_events of src/evaluator.py. -/
def process_events [DecidableEq κ] (cat : κ) (s : State κ) (rnds : List ℕ) :
    Option (State κ × List ℕ) :=
  processLoop cat (s.jobs cat).length s rnds

/-- State.receive of src/evaluator.py: the dispatch pass runs BEFORE a
launched machine joins the pool (`elif` chain: process_events first, then
launch or terminate). -/
def receive [DecidableEq κ] (s : State κ) (e : Ev κ) (rnds : List ℕ) :
    Option (State κ × List ℕ) :=
  match e with
  | .job ts dur cat =>
    let s1 := setNow TRIAL_ENDS s ts
    let s2 := { s1 with jobs := updFn s1.jobs cat (heappush jobLt (s1.jobs cat) ⟨ts, dur⟩) }
    process_events cat s2 rnds
  | .cmd ts k cat =>
    let s1 := setNow TRIAL_ENDS s ts
    match process_events cat s1 rnds with
    | none => none
    | some p =>
      let s2 := p.1
      if k = CmdKind.launch then
        let pool := heappush (machineLt s2.time) (s2.machines cat) (Machine.mk0 ts)
        some ({ s2 with machines := updFn s2.machines cat pool }, p.2)
      else
        match argmin (machineLt s2.time) (s2.machines cat) with
        | none => some (s2, p.2)
        | some i => some (terminateAt s2 cat i, p.2)

/-- State.__init__ of src/evaluator.py. -/
def initState : State SCat :=
  { time := 0, billed := 0, trial := none, overwait := false,
    jobs := fun _ => [], machines := fun _ => [] }

/-- State.evaluate of src/evaluator.py: same shape as the 2013 file
(categories `['general', 'export', 'url']`), with the random source
threaded through the final dispatch passes. -/
def evalCats [DecidableEq κ] : List κ → State κ → List ℕ → Option ℤ
  | [], s, _ => some s.billed
  | c :: cs, s, rnds =>
    match process_events c s rnds with
    | none => none
    | some p =>
      let s2 := drainLoop c ((p.1.machines c).length) p.1 0
      if s2.overwait then some (-1) else evalCats cs s2 p.2

/-- State.evaluate of src/evaluator.py. -/
def evaluate (s : State SCat) (rnds : List ℕ) : Option ℤ :=
  evalCats [SCat.general, SCat.export, SCat.url] s rnds

/-- The event loop of src/evaluator.py's main: feed events one at a time,
stopping early once `overwait` is set. -/
def runEvents : List (Ev SCat) → State SCat → List ℕ → Option (State SCat × List ℕ)
  | [], s, rnds => some (s, rnds)
  | e :: es, s, rnds =>
    match receive s e rnds with
    | none => none
    | some p => if p.1.overwait then some p else runEvents es p.1 p.2

end Spring

/-! Concrete states and inputs used by the claim theorems. -/

/-- The concrete state used to witness C1: clock 3600, five units already
billed, trial end latched at 0. -/
def c1State : State Fall2013.Cat :=
  { time := 3600, billed := 5, trial := some 0, overwait := false,
    jobs := fun _ => [], machines := fun _ => [] }

/-- The concrete state used for C5's counterexample: one machine in
category `general` that became active at 120 and is unoccupied, clock 116,
trial latched. -/
def c5State : State Spring.SCat :=
  { time := 116, billed := 0, trial := some 0, overwait := false,
    jobs := fun _ => [],
    machines := fun c => if c = Spring.SCat.general then [⟨120, 0, false⟩] else [] }

/-- The input of the spec's C8 scenario: grace period 0 (the 2013-fall
file's TRIAL_ENDS), category `default`, a launch at t=0 and a job at t=0
with duration 100. -/
def c8Events : List (Ev Fall2013.Cat) :=
  [Ev.cmd 0 CmdKind.launch Fall2013.Cat.default,
   Ev.job 0 100 Fall2013.Cat.default]

/-- The failing input for C2: two machines launched at t=0 in category
`default`, then a job at t=3600 (so that the clock at the drain is
strictly past `trial = 0` and billing is live). -/
def c2Events : List (Ev Fall2013.Cat) :=
  [Ev.cmd 0 CmdKind.launch Fall2013.Cat.default,
   Ev.cmd 0 CmdKind.launch Fall2013.Cat.default,
   Ev.job 3600 1 Fall2013.Cat.default]

/-- The concrete state used for C4's counterexample: a job with timestamp
3600 still pending in category `default`, no machines, clock 3600, trial
end 0.  (Reachable states of the engine never hold a pending job when a
command arrives - see `Fall2013.reachable_jobs_empty` - so this state
probes the launch-versus-dispatch ordering of `receive` directly.) -/
def c4PreState : State Fall2013.Cat :=
  { time := 3600, billed := 0, trial := some 0, overwait := false,
    jobs := fun c => if c = Fall2013.Cat.default then [⟨3600, 10⟩] else [],
    machines := fun _ => [] }

/-- The concrete state used for C6's witness: one machine active from 3720
in category `default`, clock 3600, trial end 0. -/
def c6State : State Fall2013.Cat :=
  { time := 3600, billed := 0, trial := some 0, overwait := false,
    jobs := fun _ => [],
    machines := fun c => if c = Fall2013.Cat.default then [⟨3720, 0, false⟩] else [] }

/-- The input for C3's counterexample against src/evaluator.py: a launch
at t=0 (so `trial = 86400`), a job at t=120 that keeps the machine busy
until 90120, and a job arriving exactly AT `trial = 86400` that no machine
can serve.  All pools have at most one machine, so `randrange` is forced
and the empty random source (every draw read as 0) is the code's actual
behaviour. -/
def c3Events : List (Ev Spring.SCat) :=
  [Ev.cmd 0 CmdKind.launch Spring.SCat.general,
   Ev.job 120 90000 Spring.SCat.general,
   Ev.job 86400 50 Spring.SCat.general]

/-! Arithmetic facts tying the Python-flavoured primitives to Mathlib's
`%` (Euclidean mod) and `⌈·⌉`. -/

theorem fdiv_neg_right : ∀ (x y : ℤ), x.fdiv (-y) = (-x).fdiv y
  | 0, y => by simp [Int.fdiv]
  | Int.ofNat (Nat.succ m), Int.ofNat 0 => by
      simp [Int.ofNat_zero, Int.fdiv_zero]
  | Int.ofNat (Nat.succ m), Int.ofNat (Nat.succ n) => by
      show Int.fdiv (Int.ofNat (Nat.succ m)) (Int.negSucc n) =
        Int.fdiv (Int.negSucc m) (Int.ofNat (Nat.succ n))
      simp [Int.fdiv]
  | Int.ofNat (Nat.succ m), Int.negSucc n => by
      show Int.fdiv (Int.ofNat (Nat.succ m)) (Int.ofNat (Nat.succ n)) =
        Int.fdiv (Int.negSucc m) (Int.negSucc n)
      simp [Int.fdiv]
  | Int.negSucc m, Int.ofNat 0 => by
      simp [Int.ofNat_zero, Int.fdiv_zero]
  | Int.negSucc m, Int.ofNat (Nat.succ n) => by
      show Int.fdiv (Int.negSucc m) (Int.negSucc n) =
        Int.fdiv (Int.ofNat (Nat.succ m)) (Int.ofNat (Nat.succ n))
      simp [Int.fdiv]
  | Int.negSucc m, Int.negSucc n => by
      show Int.fdiv (Int.negSucc m) (Int.ofNat (Nat.succ n)) =
        Int.fdiv (Int.ofNat (Nat.succ m)) (Int.negSucc n)
      simp [Int.fdiv]

/-- Python's `%` with a negated divisor in terms of the same `%` with the
divisor and dividend negated. -/
theorem fmod_neg_right (x y : ℤ) : x.fmod (-y) = -((-x).fmod y) := by
  rw [Int.fmod_def, Int.fmod_def, fdiv_neg_right]
  ring

/-- The ceiling division used to model `int(math.ceil(float(a) / b))` is
the ceiling of the exact rational quotient. -/
theorem ceilDiv_eq_ceil (a b : ℤ) (hb : 0 ≤ b) : ceilDiv a b = ⌈(a : ℚ) / (b : ℚ)⌉ := by
  lift b to ℕ using hb
  unfold ceilDiv
  rw [show ((-a).ediv (b : ℤ)) = ((-a) / (b : ℤ)) from rfl,
    ← Rat.floor_intCast_div_natCast (-a) b, ← neg_inj, neg_neg, ← Int.floor_neg]
  push_cast
  ring_nf

/-- Machine.till_billing is `(running_since - now) mod BILLING_UNIT` with
the Euclidean (normalized-to-`[0, BILLING_UNIT)`) mod. -/
theorem till_billing_eq_emod (m : Machine) (now : ℤ) :
    m.till_billing now = (m.running_since - now) % BILLING_UNIT := by
  unfold Machine.till_billing pymod
  rw [show (now - m.running_since) = -(m.running_since - now) by ring, fmod_neg_right, neg_neg,
    Int.fmod_eq_emod _ (by norm_num [BILLING_UNIT]), abs_neg,
    abs_of_nonneg (Int.emod_nonneg _ (by norm_num [BILLING_UNIT]))]

/-! Helper lemmas: field-preservation and length facts used by the claim
theorems below. -/

@[simp] theorem updFn_same [DecidableEq κ] (f : κ → β) (k : κ) (v : β) :
    updFn f k v k = v := by
  simp [updFn]

theorem updFn_other [DecidableEq κ] (f : κ → β) (k x : κ) (v : β) (h : x ≠ k) :
    updFn f k v x = f x := by
  simp [updFn, h]

theorem setNow_jobs (te : ℤ) (s : State κ) (t : ℤ) : (setNow te s t).jobs = s.jobs := by
  unfold setNow
  cases s.trial <;> rfl

theorem setNow_machines (te : ℤ) (s : State κ) (t : ℤ) :
    (setNow te s t).machines = s.machines := by
  unfold setNow
  cases s.trial <;> rfl

theorem setNow_billed (te : ℤ) (s : State κ) (t : ℤ) : (setNow te s t).billed = s.billed := by
  unfold setNow
  cases s.trial <;> rfl

theorem setNow_overwait (te : ℤ) (s : State κ) (t : ℤ) :
    (setNow te s t).overwait = s.overwait := by
  unfold setNow
  cases s.trial <;> rfl

theorem siftdown_length (lt : α → α → Bool) (x : α) (sp : ℕ) :
    ∀ (fuel : ℕ) (heap : List α) (pos : ℕ),
      (siftdown lt x sp fuel heap pos).length = heap.length
  | 0, heap, pos => by simp [siftdown]
  | fuel + 1, heap, pos => by
    simp only [siftdown]
    split
    · split
      · rw [siftdown_length lt x sp fuel]
        simp
      · simp
    · simp

theorem siftupLoop_length (lt : α → α → Bool) (endpos : ℕ) (x : α) :
    ∀ (fuel : ℕ) (heap : List α) (pos : ℕ),
      (siftupLoop lt endpos x fuel heap pos).1.length = heap.length
  | 0, heap, pos => rfl
  | fuel + 1, heap, pos => by
    simp only [siftupLoop]
    split
    · rw [siftupLoop_length lt endpos x fuel]
      simp
    · rfl

theorem siftup_length (lt : α → α → Bool) (heap : List α) (pos : ℕ) :
    (siftup lt heap pos).length = heap.length := by
  unfold siftup
  cases h : heap.get? pos with
  | none => rfl
  | some x =>
    simp only []
    rw [siftdown_length, siftupLoop_length]

theorem heappop_length (lt : α → α → Bool) (heap : List α) (p : α × List α)
    (h : heappop lt heap = some p) : p.2.length + 1 = heap.length := by
  unfold heappop at h
  cases hl : heap.getLast? with
  | none => rw [hl] at h; exact absurd h (by simp)
  | some lastelt =>
    rw [hl] at h
    dsimp only at h
    have hne : heap ≠ [] := by
      intro hnil
      rw [hnil] at hl
      exact absurd hl (by simp)
    have hlen : heap.dropLast.length = heap.length - 1 := List.length_dropLast heap
    have hpos : 1 ≤ heap.length := by
      cases heap with
      | nil => exact absurd rfl hne
      | cons a as => simp
    by_cases he : heap.dropLast.isEmpty
    · rw [if_pos he] at h
      have : heap.dropLast = [] := List.isEmpty_iff.mp he
      have h0 : heap.length - 1 = 0 := by rw [← hlen, this]; rfl
      cases h
      simpa using by omega
    · rw [if_neg he] at h
      cases h
      simp only [siftup_length, List.length_set, hlen]
      omega

theorem heappop_none_of_ne_nil (lt : α → α → Bool) (heap : List α) (hne : heap ≠ [])
    (h : heappop lt heap = none) : False := by
  unfold heappop at h
  cases hl : heap.getLast? with
  | none => exact hne (List.getLast?_eq_none_iff.mp hl)
  | some lastelt =>
    rw [hl] at h
    dsimp only at h
    by_cases he : heap.dropLast.isEmpty
    · rw [if_pos he] at h; exact absurd h (by simp)
    · rw [if_neg he] at h; exact absurd h (by simp)

theorem bill_it_fields (s : State κ) (m : Machine) :
    (bill_it s m).jobs = s.jobs ∧ (bill_it s m).machines = s.machines
    ∧ (bill_it s m).time = s.time ∧ (bill_it s m).trial = s.trial
    ∧ (bill_it s m).overwait = s.overwait := by
  unfold bill_it
  split <;> exact ⟨rfl, rfl, rfl, rfl, rfl⟩

theorem foldl_bill_it_fields (l : List Machine) :
    ∀ (s : State κ),
      (l.foldl bill_it s).jobs = s.jobs ∧ (l.foldl bill_it s).time = s.time
      ∧ (l.foldl bill_it s).trial = s.trial ∧ (l.foldl bill_it s).overwait = s.overwait
      ∧ (l.foldl bill_it s).machines = s.machines := by
  induction l with
  | nil => exact fun s => ⟨rfl, rfl, rfl, rfl, rfl⟩
  | cons m ms ih =>
    intro s
    have h1 := bill_it_fields s m
    have h2 := ih (bill_it s m)
    simp only [List.foldl_cons]
    exact ⟨h2.1.trans h1.1, h2.2.1.trans h1.2.2.1, h2.2.2.1.trans h1.2.2.2.1,
      h2.2.2.2.1.trans h1.2.2.2.2, h2.2.2.2.2.trans h1.2.1⟩

theorem billCat_fields [DecidableEq κ] (s : State κ) (cat : κ) :
    (billCat s cat).jobs = s.jobs ∧ (billCat s cat).time = s.time
    ∧ (billCat s cat).trial = s.trial ∧ (billCat s cat).overwait = s.overwait := by
  unfold billCat
  have h := foldl_bill_it_fields (κ := κ)
    ((s.machines cat).filter (fun m => m.terminated)) s
  exact ⟨h.1, h.2.1, h.2.2.1, h.2.2.2.1⟩

theorem terminateAt_fields [DecidableEq κ] (s : State κ) (cat : κ) (i : ℕ) :
    (terminateAt s cat i).jobs = s.jobs ∧ (terminateAt s cat i).time = s.time
    ∧ (terminateAt s cat i).trial = s.trial
    ∧ (terminateAt s cat i).overwait = s.overwait := by
  unfold terminateAt
  have h := billCat_fields
    { s with machines := updFn s.machines cat (markTerminated (s.machines cat) i) } cat
  exact h

theorem drainLoop_fields [DecidableEq κ] (cat : κ) :
    ∀ (fuel : ℕ) (s : State κ) (i : ℕ),
      (drainLoop cat fuel s i).jobs = s.jobs ∧ (drainLoop cat fuel s i).time = s.time
      ∧ (drainLoop cat fuel s i).trial = s.trial
      ∧ (drainLoop cat fuel s i).overwait = s.overwait
  | 0, s, i => ⟨rfl, rfl, rfl, rfl⟩
  | fuel + 1, s, i => by
    simp only [drainLoop]
    split
    · have h1 := terminateAt_fields s cat i
      have h2 := drainLoop_fields cat fuel (terminateAt s cat i) (i + 1)
      exact ⟨h2.1.trans h1.1, h2.2.1.trans h1.2.1, h2.2.2.1.trans h1.2.2.1,
        h2.2.2.2.trans h1.2.2.2⟩
    · exact ⟨rfl, rfl, rfl, rfl⟩

/-! Helper lemmas about the 2013-fall dispatch loop: it never touches the
pending-job queues except by popping, so every pass leaves its category's
queue empty, and a full run from the initial state keeps every queue
empty between events. -/

theorem Fall2013.assignJob_jobs [DecidableEq κ] (s : State κ) (cat : κ) (i : ℕ)
    (ov : ℤ) (job : Job) : (Fall2013.assignJob s cat i ov job).jobs = s.jobs := by
  unfold Fall2013.assignJob
  cases h : (s.machines cat).get? i with
  | none => rfl
  | some m =>
    simp only []
    split <;> rfl

theorem Fall2013.dispatchOne_jobs [DecidableEq κ] (s s2 : State κ) (cat : κ) (job : Job)
    (h : Fall2013.dispatchOne s cat job = some s2) : s2.jobs = s.jobs := by
  unfold Fall2013.dispatchOne at h
  cases h1 : Fall2013.findBestFree job (s.machines cat) 0 none with
  | some p =>
    rw [h1] at h
    cases h
    exact Fall2013.assignJob_jobs s cat p.2 0 job
  | none =>
    rw [h1] at h
    cases h2 : Fall2013.findBestPenalty job (s.machines cat) 0 none with
    | some p =>
      rw [h2] at h
      cases h
      exact Fall2013.assignJob_jobs s cat p.2 (p.1 - job.ts) job
    | none =>
      rw [h2] at h
      simp only [] at h
      split at h
      · exact absurd h (by simp)
      · cases h
        rfl

theorem Fall2013.processLoop_jobs [DecidableEq κ] (cat : κ) :
    ∀ (fuel : ℕ) (s s2 : State κ), Fall2013.processLoop cat fuel s = some s2 →
      fuel = (s.jobs cat).length →
      s2.jobs cat = [] ∧ ∀ c, c ≠ cat → s2.jobs c = s.jobs c
  | 0, s, s2 => by
    intro h hf
    cases h
    exact ⟨List.length_eq_zero.mp hf.symm, fun c _ => rfl⟩
  | fuel + 1, s, s2 => by
    intro h hf
    rw [Fall2013.processLoop] at h
    cases hpop : heappop jobLt (s.jobs cat) with
    | none =>
      exfalso
      have hne : s.jobs cat ≠ [] := by
        intro hnil
        rw [hnil] at hf
        exact absurd hf (by simp)
      exact heappop_none_of_ne_nil jobLt (s.jobs cat) hne hpop
    | some p =>
      rw [hpop] at h
      dsimp only at h
      cases hd : Fall2013.dispatchOne { s with jobs := updFn s.jobs cat p.2 } cat p.1 with
      | none => rw [hd] at h; exact absurd h (by simp)
      | some s3 =>
        rw [hd] at h
        have hj3 : s3.jobs = updFn s.jobs cat p.2 :=
          Fall2013.dispatchOne_jobs _ _ _ _ hd
        have hlen : p.2.length + 1 = (s.jobs cat).length := heappop_length jobLt _ _ hpop
        have hf3 : fuel = (s3.jobs cat).length := by
          rw [hj3, updFn_same]
          omega
        obtain ⟨ha, hb⟩ := Fall2013.processLoop_jobs cat fuel s3 s2 h hf3
        refine ⟨ha, fun c hc => ?_⟩
        rw [hb c hc, hj3, updFn_other _ _ _ _ hc]

theorem Fall2013.process_events_jobs [DecidableEq κ] (cat : κ) (s s2 : State κ)
    (h : Fall2013.process_events cat s = some s2) :
    s2.jobs cat = [] ∧ ∀ c, c ≠ cat → s2.jobs c = s.jobs c :=
  Fall2013.processLoop_jobs cat _ s s2 h rfl

theorem Fall2013.receive_jobs_empty [DecidableEq κ] (s s2 : State κ) (e : Ev κ)
    (hs : ∀ c, s.jobs c = []) (h : Fall2013.receive s e = some s2) :
    ∀ c, s2.jobs c = [] := by
  cases e with
  | job ts dur cat =>
    unfold Fall2013.receive at h
    obtain ⟨ha, hb⟩ := Fall2013.process_events_jobs cat _ s2 h
    intro c
    by_cases hc : c = cat
    · rw [hc]; exact ha
    · rw [hb c hc]
      dsimp only
      rw [updFn_other _ _ _ _ hc]
      simp only [setNow_jobs]
      exact hs c
  | cmd ts k cat =>
    unfold Fall2013.receive at h
    dsimp only at h
    set s1 := setNow Fall2013.TRIAL_ENDS s ts with hs1
    set sb := if k = CmdKind.launch then
        let pool := heappush (machineLt s1.time) (s1.machines cat) (Machine.mk0 ts)
        { s1 with machines := updFn s1.machines cat pool }
      else s1 with hsb
    have hsbj : sb.jobs = s.jobs := by
      rw [hsb]
      split
      · show s1.jobs = s.jobs
        rw [hs1, setNow_jobs]
      · rw [hs1, setNow_jobs]
    cases hpe : Fall2013.process_events cat sb with
    | none => rw [hpe] at h; exact absurd h (by simp)
    | some s3 =>
      rw [hpe] at h
      dsimp only at h
      obtain ⟨ha, hb⟩ := Fall2013.process_events_jobs cat sb s3 hpe
      have hs3 : ∀ c, s3.jobs c = [] := by
        intro c
        by_cases hc : c = cat
        · rw [hc]; exact ha
        · rw [hb c hc, hsbj]; exact hs c
      by_cases hk : k = CmdKind.terminate
      · rw [if_pos hk] at h
        cases hm : argmin (machineLt s3.time) (s3.machines cat) with
        | none => rw [hm] at h; cases h; exact hs3
        | some i =>
          rw [hm] at h
          cases h
          intro c
          rw [(terminateAt_fields s3 cat i).1]
          exact hs3 c
      · rw [if_neg hk] at h
        cases h
        exact hs3

theorem Fall2013.runEvents_jobs_empty :
    ∀ (evts : List (Ev Fall2013.Cat)) (s s2 : State Fall2013.Cat),
      (∀ c, s.jobs c = []) → Fall2013.runEvents evts s = some s2 → ∀ c, s2.jobs c = []
  | [], s, s2 => by
    intro hs h
    cases h
    exact hs
  | e :: es, s, s2 => by
    intro hs h
    rw [Fall2013.runEvents] at h
    cases hr : Fall2013.receive s e with
    | none => rw [hr] at h; exact absurd h (by simp)
    | some s1 =>
      rw [hr] at h
      dsimp only at h
      have hs1 : ∀ c, s1.jobs c = [] := Fall2013.receive_jobs_empty s s1 e hs hr
      by_cases ho : s1.overwait
      · rw [if_pos ho] at h
        cases h
        exact hs1
      · rw [if_neg ho] at h
        exact Fall2013.runEvents_jobs_empty es s1 s2 hs1 h

/-- Every state the 2013-fall engine reaches from its initial state has
all three pending-job queues empty: each received job is dispatched or
dropped within the same `receive`. -/
theorem Fall2013.reachable_jobs_empty (evts : List (Ev Fall2013.Cat))
    (s : State Fall2013.Cat) (h : Fall2013.runEvents evts Fall2013.initState = some s) :
    ∀ c, s.jobs c = [] :=
  Fall2013.runEvents_jobs_empty evts Fall2013.initState s (fun _ => rfl) h

/-! The same queue-emptiness invariant for the src/evaluator.py engine:
its dispatch never touches the pending-job queues except by popping
either, so runs from its initial state also keep every queue empty
between events. -/

theorem Spring.dispatchOne_preserves_jobs [DecidableEq κ] (c : ℕ) (s s2 : State κ) (cat : κ)
    (job : Job) (h : Spring.dispatchOne c s cat job = some s2) : s2.jobs = s.jobs := by
  unfold Spring.dispatchOne at h
  dsimp only at h
  split at h
  · exact absurd h (by simp)
  · split at h
    · cases h
      rfl
    · split at h
      · cases h
        rfl
      · cases h
        rfl

theorem Spring.processLoop_empties_queue [DecidableEq κ] (cat : κ) :
    ∀ (fuel : ℕ) (s s2 : State κ) (rnds rnds2 : List ℕ),
      Spring.processLoop cat fuel s rnds = some (s2, rnds2) →
      fuel = (s.jobs cat).length →
      s2.jobs cat = [] ∧ ∀ c, c ≠ cat → s2.jobs c = s.jobs c
  | 0, s, s2, rnds, rnds2 => by
    intro h hf
    cases h
    exact ⟨List.length_eq_zero.mp hf.symm, fun c _ => rfl⟩
  | fuel + 1, s, s2, rnds, rnds2 => by
    intro h hf
    rw [Spring.processLoop] at h
    cases hpop : heappop jobLt (s.jobs cat) with
    | none =>
      exfalso
      have hne : s.jobs cat ≠ [] := by
        intro hnil
        rw [hnil] at hf
        exact absurd hf (by simp)
      exact heappop_none_of_ne_nil jobLt (s.jobs cat) hne hpop
    | some p =>
      rw [hpop] at h
      dsimp only at h
      cases hd : Spring.dispatchOne (rnds.headD 0)
          { s with jobs := updFn s.jobs cat p.2 } cat p.1 with
      | none => rw [hd] at h; exact absurd h (by simp)
      | some s3 =>
        rw [hd] at h
        have hj3 : s3.jobs = updFn s.jobs cat p.2 :=
          Spring.dispatchOne_preserves_jobs _ _ _ _ _ hd
        have hlen : p.2.length + 1 = (s.jobs cat).length := heappop_length jobLt _ _ hpop
        have hf3 : fuel = (s3.jobs cat).length := by
          rw [hj3, updFn_same]
          omega
        obtain ⟨ha, hb⟩ := Spring.processLoop_empties_queue cat fuel s3 s2 rnds.tail rnds2 h hf3
        refine ⟨ha, fun c hc => ?_⟩
        rw [hb c hc, hj3, updFn_other _ _ _ _ hc]

theorem Spring.process_events_empties_queue [DecidableEq κ] (cat : κ) (s s2 : State κ)
    (rnds rnds2 : List ℕ) (h : Spring.process_events cat s rnds = some (s2, rnds2)) :
    s2.jobs cat = [] ∧ ∀ c, c ≠ cat → s2.jobs c = s.jobs c :=
  Spring.processLoop_empties_queue cat _ s s2 rnds rnds2 h rfl

theorem Spring.receive_keeps_queues_empty [DecidableEq κ] (s s2 : State κ) (e : Ev κ)
    (rnds rnds2 : List ℕ) (hs : ∀ c, s.jobs c = [])
    (h : Spring.receive s e rnds = some (s2, rnds2)) : ∀ c, s2.jobs c = [] := by
  cases e with
  | job ts dur cat =>
    unfold Spring.receive at h
    dsimp only at h
    obtain ⟨ha, hb⟩ := Spring.process_events_empties_queue cat _ s2 rnds rnds2 h
    intro c
    by_cases hc : c = cat
    · rw [hc]; exact ha
    · rw [hb c hc]
      dsimp only
      rw [updFn_other _ _ _ _ hc]
      simp only [setNow_jobs]
      exact hs c
  | cmd ts k cat =>
    unfold Spring.receive at h
    dsimp only at h
    cases hpe : Spring.process_events cat (setNow Spring.TRIAL_ENDS s ts) rnds with
    | none => rw [hpe] at h; exact absurd h (by simp)
    | some p =>
      obtain ⟨s3, r3⟩ := p
      rw [hpe] at h
      dsimp only at h
      obtain ⟨ha, hb⟩ := Spring.process_events_empties_queue cat _ s3 rnds r3 hpe
      have hs3 : ∀ c, s3.jobs c = [] := by
        intro c
        by_cases hc : c = cat
        · rw [hc]; exact ha
        · rw [hb c hc, setNow_jobs]; exact hs c
      by_cases hk : k = CmdKind.launch
      · rw [if_pos hk] at h
        cases h
        exact hs3
      · rw [if_neg hk] at h
        cases hm : argmin (machineLt s3.time) (s3.machines cat) with
        | none =>
          rw [hm] at h
          cases h
          exact hs3
        | some i =>
          rw [hm] at h
          cases h
          intro c
          rw [(terminateAt_fields s3 cat i).1]
          exact hs3 c

theorem Spring.runEvents_keeps_queues_empty :
    ∀ (evts : List (Ev Spring.SCat)) (s s2 : State Spring.SCat) (rnds rnds2 : List ℕ),
      (∀ c, s.jobs c = []) → Spring.runEvents evts s rnds = some (s2, rnds2) →
      ∀ c, s2.jobs c = []
  | [], s, s2, rnds, rnds2 => by
    intro hs h
    cases h
    exact hs
  | e :: es, s, s2, rnds, rnds2 => by
    intro hs h
    rw [Spring.runEvents] at h
    cases hr : Spring.receive s e rnds with
    | none => rw [hr] at h; exact absurd h (by simp)
    | some p =>
      obtain ⟨s1, r1⟩ := p
      rw [hr] at h
      dsimp only at h
      have hs1 : ∀ c, s1.jobs c = [] := Spring.receive_keeps_queues_empty s s1 e rnds r1 hs hr
      by_cases ho : s1.overwait
      · rw [if_pos ho] at h
        cases h
        exact hs1
      · rw [if_neg ho] at h
        exact Spring.runEvents_keeps_queues_empty es s1 s2 r1 rnds2 hs1 h

/-- Every state the src/evaluator.py engine reaches from its initial
state, under any random source, has all three pending-job queues empty. -/
theorem Spring.reachable_queues_empty (evts : List (Ev Spring.SCat)) (rnds rnds2 : List ℕ)
    (s : State Spring.SCat)
    (h : Spring.runEvents evts Spring.initState rnds = some (s, rnds2)) :
    ∀ c, s.jobs c = [] :=
  Spring.runEvents_keeps_queues_empty evts Spring.initState s rnds rnds2 (fun _ => rfl) h

/-! Claim theorems. -/

/-- C7: for every machine and every time `now` not earlier than
`running_since`, `till_billing(now)` equals `(running_since - now) mod
BILLING_UNIT` normalized into `[0, BILLING_UNIT)`, and it is 0 exactly
when `now - running_since` is an integer multiple of BILLING_UNIT; in
particular it is always non-negative and strictly below BILLING_UNIT. -/
theorem c7_till_billing_is_normalized_mod (m : Machine) (now : ℤ)
    (h : m.running_since ≤ now) :
    m.till_billing now = (m.running_since - now) % BILLING_UNIT
    ∧ 0 ≤ m.till_billing now ∧ m.till_billing now < BILLING_UNIT
    ∧ (m.till_billing now = 0 ↔ ∃ k : ℤ, now - m.running_since = BILLING_UNIT * k) := by
  have hB : (0 : ℤ) < BILLING_UNIT := by norm_num [BILLING_UNIT]
  refine ⟨till_billing_eq_emod m now, ?_, ?_, ?_⟩
  · rw [till_billing_eq_emod]
    exact Int.emod_nonneg _ hB.ne'
  · rw [till_billing_eq_emod]
    exact Int.emod_lt_of_pos _ hB
  · rw [till_billing_eq_emod]
    constructor
    · intro h0
      obtain ⟨k, hk⟩ := Int.dvd_of_emod_eq_zero h0
      refine ⟨-k, ?_⟩
      rw [mul_neg, ← hk]
      ring
    · rintro ⟨k, hk⟩
      apply Int.emod_eq_zero_of_dvd
      refine ⟨-k, ?_⟩
      rw [mul_neg, ← hk]
      ring

/-- Witness for C7 at the machine booted at time -120 (`running_since = 0`)
and `now = 100`. -/
theorem c7_witness :
    Machine.till_billing ⟨120, 0, false⟩ 100 =
      (Machine.running_since ⟨120, 0, false⟩ - 100) % BILLING_UNIT :=
  (c7_till_billing_is_normalized_mod ⟨120, 0, false⟩ 100 (by decide)).1

/-- C1: billing a machine when the clock is strictly past `trial` adds
exactly `ceil((billing_end - billing_start) / BILLING_UNIT)` units, where
`stop = max(clock, busy_till)`, `billing_start = max(trial,
running_since)` and `billing_end = max(trial, stop + till_billing(stop))`;
when the clock is not strictly past `trial`, `billed` is unchanged. -/
theorem c1_bill_it_adds_ceil_units (κ : Type) [DecidableEq κ] (s : State κ)
    (m : Machine) (tr : ℤ) (h : s.trial = some tr) :
    (tr < s.time →
      (bill_it s m).billed = s.billed +
        ⌈((max tr (max s.time m.busy_till + m.till_billing (max s.time m.busy_till)) -
            max tr m.running_since : ℤ) : ℚ) / ((BILLING_UNIT : ℤ) : ℚ)⌉)
    ∧ (¬ tr < s.time → (bill_it s m).billed = s.billed) := by
  constructor
  · intro hlt
    rw [← ceilDiv_eq_ceil _ _ (by norm_num [BILLING_UNIT])]
    simp [bill_it, gtTrial, h, hlt, maxTrial]
  · intro hnlt
    simp [bill_it, gtTrial, h, hnlt]

/-- Witness for C1: a machine with `running_since = 0` and no work, billed
at clock 3600 with trial end 0, is charged `ceil(3600/3600) = 1` unit on
top of the 5 already billed. -/
theorem c1_witness : (bill_it c1State ⟨120, 0, false⟩).billed = 6 := by
  have h := (c1_bill_it_adds_ceil_units Fall2013.Cat c1State ⟨120, 0, false⟩ 0 rfl).1 (by decide)
  rw [h, ← ceilDiv_eq_ceil _ _ (by norm_num [BILLING_UNIT])]
  decide

/-- C9: over any sequence of job assignments with non-negative durations,
`busy_till` never decreases — under the 2013-fall assignment
(Machine.take_job) as well as under the src/evaluator.py assignment
(Spring.assign).  Each pair in the list is an assignment
(timestamp, duration). -/
theorem c9_busy_till_monotone (m : Machine) (l : List (ℤ × ℤ))
    (hl : ∀ p ∈ l, 0 ≤ p.2) :
    m.busy_till ≤ (l.foldl (fun (acc : Machine) p => acc.take_job p.1 p.2) m).busy_till
    ∧ m.busy_till ≤ (l.foldl (fun acc p => Spring.assign acc p.1 p.2) m).busy_till := by
  induction l generalizing m with
  | nil => exact ⟨le_refl _, le_refl _⟩
  | cons p ps ih =>
    have hp : 0 ≤ p.2 := hl p (List.mem_cons_self p ps)
    have hps : ∀ q ∈ ps, 0 ≤ q.2 := fun q hq => hl q (List.mem_cons_of_mem p hq)
    constructor
    · refine le_trans ?_ ((ih (m.take_job p.1 p.2) hps).1)
      show m.busy_till ≤ m.job_runtime p.1 p.2
      unfold Machine.job_runtime
      have h1 : m.busy_till ≤ max (max m.active_from m.busy_till) p.1 :=
        le_trans (le_max_right _ _) (le_max_left _ _)
      linarith
    · refine le_trans ?_ ((ih (Spring.assign m p.1 p.2) hps).2)
      show m.busy_till ≤ max m.busy_till p.1 + p.2
      have h1 : m.busy_till ≤ max m.busy_till p.1 := le_max_left _ _
      linarith

/-- Witness for C9: two assignments with durations 100 and 0 to a machine
booted at 0. -/
theorem c9_witness :
    (⟨120, 0, false⟩ : Machine).busy_till ≤
      (([(0, 100), (50, 0)] : List (ℤ × ℤ)).foldl
        (fun (acc : Machine) p => acc.take_job p.1 p.2) ⟨120, 0, false⟩).busy_till :=
  (c9_busy_till_monotone ⟨120, 0, false⟩ [(0, 100), (50, 0)] (by decide)).1

/-- C5 counterexample: in the src/evaluator.py dispatch (Variant B), a job
arriving at 116 with duration 10 is given to the machine with
`active_from = 120`, and `busy_till` becomes `max(busy_till, 116) + 10 =
126` — NOT `projected_finish(116, 10) = max(active_from, busy_till, 116) +
10 = 130`: the boot delay is ignored by this variant's assignment. -/
theorem c5_counterexample :
    (Spring.dispatchOne 0 c5State Spring.SCat.general ⟨116, 10⟩).map
        (fun s => (s.machines Spring.SCat.general).map (fun m => m.busy_till)) = some [126]
    ∧ (⟨120, 0, false⟩ : Machine).job_runtime 116 10 = 130 := by
  constructor
  · decide
  · decide

/-- C5 amended: the 2013-fall dispatch (Variant A) sets `busy_till` to
`projected_finish = max(active_from, busy_till, arrival) + duration`, but
the src/evaluator.py dispatch (Variant B) sets `busy_till` to
`max(busy_till, arrival) + duration`, ignoring `active_from`; since
Variant B only assigns to machines with `is_active(arrival +
MAX_QUEUE_TIME)`, its `busy_till` understates Variant A's by at most
`MAX_QUEUE_TIME = 5` seconds and never overstates it. -/
theorem c5_amended_assignment_rules (m : Machine) (t d : ℤ)
    (hact : m.is_active (t + Spring.MAX_QUEUE_TIME) = true) :
    (m.take_job t d).busy_till = max (max m.active_from m.busy_till) t + d
    ∧ (Spring.assign m t d).busy_till = max m.busy_till t + d
    ∧ (Spring.assign m t d).busy_till ≤ (m.take_job t d).busy_till
    ∧ (m.take_job t d).busy_till ≤ (Spring.assign m t d).busy_till + Spring.MAX_QUEUE_TIME := by
  have hA : m.active_from ≤ t + Spring.MAX_QUEUE_TIME := by
    simp only [Machine.is_active, Bool.and_eq_true, decide_eq_true_eq] at hact
    exact hact.1
  refine ⟨rfl, rfl, ?_, ?_⟩
  · show max m.busy_till t + d ≤ max (max m.active_from m.busy_till) t + d
    have : max m.busy_till t ≤ max (max m.active_from m.busy_till) t :=
      max_le_max (le_max_right _ _) (le_refl _)
    linarith
  · show max (max m.active_from m.busy_till) t + d ≤ max m.busy_till t + d + Spring.MAX_QUEUE_TIME
    have h1 : m.active_from ≤ max m.busy_till t + Spring.MAX_QUEUE_TIME := by
      have := le_max_right m.busy_till t
      linarith
    have h2 : m.busy_till ≤ max m.busy_till t + Spring.MAX_QUEUE_TIME := by
      have hq : (0 : ℤ) ≤ Spring.MAX_QUEUE_TIME := by norm_num [Spring.MAX_QUEUE_TIME]
      have := le_max_left m.busy_till t
      linarith
    have h3 : t ≤ max m.busy_till t + Spring.MAX_QUEUE_TIME := by
      have hq : (0 : ℤ) ≤ Spring.MAX_QUEUE_TIME := by norm_num [Spring.MAX_QUEUE_TIME]
      have := le_max_right m.busy_till t
      linarith
    have : max (max m.active_from m.busy_till) t ≤ max m.busy_till t + Spring.MAX_QUEUE_TIME :=
      max_le (max_le h1 h2) h3
    linarith

/-- Witness for C5's amended statement at the counterexample's inputs. -/
theorem c5_amended_witness :
    ((⟨120, 0, false⟩ : Machine).take_job 116 10).busy_till =
      max (max 120 0) 116 + 10
    ∧ (Spring.assign ⟨120, 0, false⟩ 116 10).busy_till = max 0 116 + 10
    ∧ (Spring.assign ⟨120, 0, false⟩ 116 10).busy_till ≤
        ((⟨120, 0, false⟩ : Machine).take_job 116 10).busy_till
    ∧ ((⟨120, 0, false⟩ : Machine).take_job 116 10).busy_till ≤
        (Spring.assign ⟨120, 0, false⟩ 116 10).busy_till + Spring.MAX_QUEUE_TIME :=
  c5_amended_assignment_rules ⟨120, 0, false⟩ 116 10 (by decide)

/-- C8 counterexample: on the claimed scenario the run's final result is
NOT 1. -/
theorem c8_counterexample : Fall2013.evalSubmission c8Events ≠ some 1 := by
  decide

/-- C8 amended: the job does wait out the boot delay — the machine's
`busy_till` becomes 220 — but the final result is 0, not 1: `bill_it`
charges only when the clock is STRICTLY past `trial`, and at the drain the
clock is the last event's timestamp 0, which equals `trial = 0 + 0`. -/
theorem c8_amended_busy_220_result_0 :
    (Fall2013.runEvents c8Events Fall2013.initState).map
        (fun s => ((s.machines Fall2013.Cat.default).map (fun m => m.busy_till),
          s.time, s.trial)) = some ([220], 0, some 0)
    ∧ Fall2013.evalSubmission c8Events = some 0 := by
  constructor
  · decide
  · decide

/-- C2 (code bug): on `c2Events` the final drain must terminate and bill
BOTH machines (2 units for the one that ran the job until 3601, rounded up
to 7200, plus 1 unit for the idle one, billed 0..3600), so every-machine
billing would yield 3; the code yields 2, and after the drain loop one
machine is still in the pool, never terminated and never billed.  The
cause: `State.evaluate` iterates `for machine in self.machines[category]`
while `terminate` → `bill` removes elements from that same list, so the
list iterator skips every other element. -/
theorem c2_drain_skips_machines :
    Fall2013.evalSubmission c2Events = some 2
    ∧ (Fall2013.runEvents c2Events Fall2013.initState).map
        (fun s =>
          ((drainLoop Fall2013.Cat.default ((s.machines Fall2013.Cat.default).length) s 0).machines
              Fall2013.Cat.default).map (fun m => m.terminated)) = some [false] := by
  constructor
  · decide
  · decide

/-- C10: in any state either engine reaches whose machine pool for some
category is empty, receiving a terminate command for that category only
advances the clock: the result is `some` (no error), with `billed` and
every machine pool unchanged — for the 2013-fall engine and, under any
random source, for the src/evaluator.py engine. -/
theorem c10_terminate_empty_pool_noop :
    (∀ (evts : List (Ev Fall2013.Cat)) (s : State Fall2013.Cat)
      (cat : Fall2013.Cat) (ts : ℤ),
      Fall2013.runEvents evts Fall2013.initState = some s →
      s.machines cat = [] →
      Fall2013.receive s (Ev.cmd ts CmdKind.terminate cat) =
        some (setNow Fall2013.TRIAL_ENDS s ts)
      ∧ (setNow Fall2013.TRIAL_ENDS s ts).billed = s.billed
      ∧ (setNow Fall2013.TRIAL_ENDS s ts).machines = s.machines)
    ∧ (∀ (evts : List (Ev Spring.SCat)) (rnds rnds2 : List ℕ)
        (s : State Spring.SCat) (cat : Spring.SCat) (ts : ℤ),
        Spring.runEvents evts Spring.initState rnds = some (s, rnds2) →
        s.machines cat = [] →
        Spring.receive s (Ev.cmd ts CmdKind.terminate cat) rnds2 =
          some (setNow Spring.TRIAL_ENDS s ts, rnds2)
        ∧ (setNow Spring.TRIAL_ENDS s ts).billed = s.billed
        ∧ (setNow Spring.TRIAL_ENDS s ts).machines = s.machines) := by
  constructor
  · intro evts s cat ts h hm
    have hj : s.jobs cat = [] := Fall2013.reachable_jobs_empty evts s h cat
    refine ⟨?_, setNow_billed _ s ts, setNow_machines _ s ts⟩
    unfold Fall2013.receive
    dsimp only
    rw [if_neg (by intro hk; cases hk)]
    have h1 : (setNow Fall2013.TRIAL_ENDS s ts).jobs cat = [] := by
      rw [setNow_jobs]; exact hj
    have h2 : (setNow Fall2013.TRIAL_ENDS s ts).machines cat = [] := by
      rw [setNow_machines]; exact hm
    rw [show Fall2013.process_events cat (setNow Fall2013.TRIAL_ENDS s ts) =
        some (setNow Fall2013.TRIAL_ENDS s ts) by
      unfold Fall2013.process_events
      rw [h1]
      rfl]
    dsimp only
    rw [if_pos rfl, h2]
    rfl
  · intro evts rnds rnds2 s cat ts h hm
    have hj : s.jobs cat = [] := Spring.reachable_queues_empty evts rnds rnds2 s h cat
    refine ⟨?_, setNow_billed _ s ts, setNow_machines _ s ts⟩
    unfold Spring.receive
    dsimp only
    have h1 : (setNow Spring.TRIAL_ENDS s ts).jobs cat = [] := by
      rw [setNow_jobs]; exact hj
    have h2 : (setNow Spring.TRIAL_ENDS s ts).machines cat = [] := by
      rw [setNow_machines]; exact hm
    rw [show Spring.process_events cat (setNow Spring.TRIAL_ENDS s ts) rnds2 =
        some (setNow Spring.TRIAL_ENDS s ts, rnds2) by
      unfold Spring.process_events
      rw [h1]
      rfl]
    dsimp only
    rw [if_neg (by intro hk; cases hk), h2]
    rfl

/-- Witness for C10 at both engines' initial states (empty runs),
category `url`, terminate at t=5. -/
theorem c10_witness :
    (Fall2013.receive Fall2013.initState (Ev.cmd 5 CmdKind.terminate Fall2013.Cat.url) =
        some (setNow Fall2013.TRIAL_ENDS Fall2013.initState 5)
      ∧ (setNow Fall2013.TRIAL_ENDS Fall2013.initState 5).billed = Fall2013.initState.billed
      ∧ (setNow Fall2013.TRIAL_ENDS Fall2013.initState 5).machines =
          Fall2013.initState.machines)
    ∧ (Spring.receive Spring.initState (Ev.cmd 5 CmdKind.terminate Spring.SCat.url) [] =
        some (setNow Spring.TRIAL_ENDS Spring.initState 5, [])
      ∧ (setNow Spring.TRIAL_ENDS Spring.initState 5).billed = Spring.initState.billed
      ∧ (setNow Spring.TRIAL_ENDS Spring.initState 5).machines =
          Spring.initState.machines) :=
  ⟨c10_terminate_empty_pool_noop.1 [] Fall2013.initState Fall2013.Cat.url 5 rfl rfl,
   c10_terminate_empty_pool_noop.2 [] [] [] Spring.initState Spring.SCat.url 5 rfl rfl⟩

/-- C4 counterexample: from a state with a job (timestamp 3600) pending in
`default` and an empty pool, receiving a launch command at the same
timestamp 3600 makes the 2013-fall engine dispatch that already-queued job
onto the just-launched machine in the same pass: afterwards the queue is
empty, the new machine's `busy_till` is 3730 = max(3720, 0, 3600) + 10,
and the job's queueing penalty (3) was billed.  The machine is therefore
inserted BEFORE the dispatch pass, not after it as the claim states. -/
theorem c4_counterexample :
    (Fall2013.receive c4PreState (Ev.cmd 3600 CmdKind.launch Fall2013.Cat.default)).map
      (fun s => ((s.jobs Fall2013.Cat.default).map (fun j => j.ts),
        (s.machines Fall2013.Cat.default).map (fun m => m.busy_till), s.billed))
      = some ([], [3730], 3) := by
  decide

/-- C4 amended: on a launch command the 2013-fall `receive` pushes the new
machine into the pool FIRST and runs the dispatch pass afterwards (the
src/evaluator.py variant does the opposite), so a job still queued at the
instant of the launch CAN be served by that machine during the same pass;
in the states the engine actually reaches the pending queues are always
empty when a command arrives, every job being resolved on arrival. -/
theorem c4_amended_launch_insert_then_dispatch :
    (∀ (s : State Fall2013.Cat) (ts : ℤ) (cat : Fall2013.Cat),
      Fall2013.receive s (Ev.cmd ts CmdKind.launch cat) =
        Fall2013.process_events cat
          { setNow Fall2013.TRIAL_ENDS s ts with
            machines := updFn (setNow Fall2013.TRIAL_ENDS s ts).machines cat
              (heappush (machineLt (setNow Fall2013.TRIAL_ENDS s ts).time)
                ((setNow Fall2013.TRIAL_ENDS s ts).machines cat) (Machine.mk0 ts)) })
    ∧ (∀ (evts : List (Ev Fall2013.Cat)) (s : State Fall2013.Cat),
        Fall2013.runEvents evts Fall2013.initState = some s → ∀ c, s.jobs c = []) := by
  constructor
  · intro s ts cat
    unfold Fall2013.receive
    dsimp only
    rw [if_pos rfl]
    cases hpe : Fall2013.process_events cat
        { setNow Fall2013.TRIAL_ENDS s ts with
          machines := updFn (setNow Fall2013.TRIAL_ENDS s ts).machines cat
            (heappush (machineLt (setNow Fall2013.TRIAL_ENDS s ts).time)
              ((setNow Fall2013.TRIAL_ENDS s ts).machines cat) (Machine.mk0 ts)) } with
    | none => rfl
    | some s3 =>
      dsimp only
      rw [if_neg (by intro hk; cases hk)]
  · exact Fall2013.reachable_jobs_empty

/-- Witness for C4's amended statement: the queue-emptiness half at the
empty run, category `url`. -/
theorem c4_witness : Fall2013.initState.jobs Fall2013.Cat.url = [] :=
  c4_amended_launch_insert_then_dispatch.2 [] Fall2013.initState rfl Fall2013.Cat.url

/-- Helper: the index recorded by the second dispatch pass is a valid
index into the scanned pool. -/
theorem Fall2013.findBestPenalty_index_lt (job : Job) :
    ∀ (l : List Machine) (i : ℕ) (best : Option (ℤ × ℕ)),
      (∀ q, best = some q → q.2 < i) →
      ∀ p, Fall2013.findBestPenalty job l i best = some p → p.2 < i + l.length
  | [], i, best => by
    intro hb p hp
    have := hb p hp
    simpa using this
  | m :: ms, i, best => by
    intro hb p hp
    rw [Fall2013.findBestPenalty] at hp
    have hnext : ∀ q,
        (if m.is_active (job.ts + Fall2013.MAX_QUEUE_TIME) then
          match best with
          | none => some (m.job_runtime job.ts 0, i)
          | some p => if m.job_runtime job.ts 0 < p.1 then some (m.job_runtime job.ts 0, i)
              else some p
        else best) = some q → q.2 < i + 1 := by
      intro q hq
      split at hq
      · cases hbb : best with
        | none =>
          rw [hbb] at hq
          cases hq
          omega
        | some b =>
          have hbl := hb b hbb
          rw [hbb] at hq
          dsimp only at hq
          split at hq
          · cases hq; omega
          · cases hq; omega
      · have := hb q hq
        omega
    have := Fall2013.findBestPenalty_index_lt job ms (i + 1) _ hnext p hp
    simpa [Nat.add_comm, Nat.add_assoc, Nat.add_left_comm] using this

/-- Helper: `calculate_penalty` is never negative. -/
theorem Fall2013.calculate_penalty_nonneg (ov : ℤ) : 0 ≤ Fall2013.calculate_penalty ov :=
  le_max_right _ _

/-- Helper: the billed delta of the assignment arm is the penalty, charged
exactly when `now > trial`. -/
theorem Fall2013.assignJob_billed [DecidableEq κ] (s : State κ) (cat : κ) (i : ℕ)
    (ov : ℤ) (job : Job) (m : Machine) (hm : (s.machines cat).get? i = some m) :
    (Fall2013.assignJob s cat i ov job).billed =
      s.billed + (if gtTrial s.time s.trial then Fall2013.calculate_penalty ov else 0) := by
  unfold Fall2013.assignJob
  rw [hm]
  dsimp only
  by_cases h1 : 0 < Fall2013.calculate_penalty ov
  · by_cases h2 : gtTrial s.time s.trial
    · rw [if_pos (by simp [h1, h2]), if_pos h2]
    · rw [if_neg (by simp [h2]), if_neg h2]
      simp
  · have h0 : Fall2013.calculate_penalty ov = 0 :=
      le_antisymm (by omega) (Fall2013.calculate_penalty_nonneg ov)
    rw [if_neg (by simp [h1])]
    split <;> simp [h0]

/-- C6: when a job goes through the second (penalty-window) pass of the
2013-fall dispatch with recorded minimal start time `st` (overrun
`st - job.ts`), the billed total grows by
`max(0, ceil(3*(overrun - FREE_QUEUE_TIME) / MAX_QUEUE_TIME))` exactly
when the clock is strictly past `trial`, and otherwise by nothing; a job
that dispatches through the first (free-window) pass never changes the
billed total. -/
theorem c6_penalty_window_charge (κ : Type) [DecidableEq κ] (s : State κ) (cat : κ)
    (job : Job) (tr st : ℤ) (i : ℕ) (h : s.trial = some tr) :
    (Fall2013.findBestFree job (s.machines cat) 0 none = none →
      Fall2013.findBestPenalty job (s.machines cat) 0 none = some (st, i) →
      (Fall2013.dispatchOne s cat job).map (fun s2 => s2.billed) =
        some (s.billed +
          if tr < s.time then
            max 0 ⌈((3 * ((st - job.ts) - Fall2013.FREE_QUEUE_TIME) : ℤ) : ℚ) /
              ((Fall2013.MAX_QUEUE_TIME : ℤ) : ℚ)⌉
          else 0))
    ∧ (∀ r j, Fall2013.findBestFree job (s.machines cat) 0 none = some (r, j) →
        (Fall2013.dispatchOne s cat job).map (fun s2 => s2.billed) = some s.billed) := by
  constructor
  · intro h1 h2
    have hi : i < (s.machines cat).length := by
      have := Fall2013.findBestPenalty_index_lt job (s.machines cat) 0 none
        (by intro q hq; cases hq) (st, i) h2
      simpa using this
    have hm : (s.machines cat).get? i = some ((s.machines cat).get ⟨i, hi⟩) :=
      List.get?_eq_get hi
    unfold Fall2013.dispatchOne
    rw [h1, h2]
    dsimp only [Option.map_some']
    rw [Fall2013.assignJob_billed s cat i (st - job.ts) job _ hm]
    have hgt : gtTrial s.time s.trial = decide (tr < s.time) := by
      rw [h]; rfl
    rw [hgt]
    by_cases hlt : tr < s.time
    · rw [if_pos (by simpa using hlt), if_pos hlt]
      congr 1
      unfold Fall2013.calculate_penalty
      rw [ceilDiv_eq_ceil (3 * ((st - job.ts) - Fall2013.FREE_QUEUE_TIME))
        Fall2013.MAX_QUEUE_TIME (by norm_num [Fall2013.MAX_QUEUE_TIME])]
      rw [max_comm]
    · rw [if_neg (by simpa using hlt), if_neg hlt]
  · intro r j h1
    unfold Fall2013.dispatchOne
    rw [h1]
    dsimp only [Option.map_some']
    congr 1
    unfold Fall2013.assignJob
    cases hm : (s.machines cat).get? j with
    | none => rfl
    | some m =>
      dsimp only
      rw [if_neg (by simp [show Fall2013.calculate_penalty 0 = 0 by decide])]

/-- Witness for C6: in `c6State` (one machine active from 3720, clock
3600, trial 0) a job at 3600 with duration 10 misses the free window, is
dispatched with overrun 120, and is charged `ceil(3*(120-5)/120) = 3`
units. -/
theorem c6_witness :
    (Fall2013.dispatchOne c6State Fall2013.Cat.default ⟨3600, 10⟩).map
      (fun s2 => s2.billed) = some 3 := by
  have h := (c6_penalty_window_charge Fall2013.Cat c6State Fall2013.Cat.default
    ⟨3600, 10⟩ 0 3720 0 rfl).1 (by decide) (by decide)
  rw [h, ← ceilDiv_eq_ceil (3 * (((3720 : ℤ) - (⟨3600, 10⟩ : Job).ts) - Fall2013.FREE_QUEUE_TIME))
    Fall2013.MAX_QUEUE_TIME (by norm_num [Fall2013.MAX_QUEUE_TIME])]
  decide

/-- Helper: the cyclic scan finds nothing when no machine in the scanned
list is active at the probe time. -/
theorem Spring.findFirstActive_none (t : ℤ) :
    ∀ (l : List Machine) (i : ℕ), (∀ m ∈ l, m.is_active t = false) →
      Spring.findFirstActive t l i = none
  | [], _, _ => rfl
  | m :: ms, i, h => by
    rw [Spring.findFirstActive, h m (List.mem_cons_self m ms)]
    simp only [Bool.false_eq_true, if_false]
    exact Spring.findFirstActive_none t ms (i + 1)
      (fun m2 hm2 => h m2 (List.mem_cons_of_mem m hm2))

/-- C3 counterexample (src/evaluator.py): running `c3Events`, the job
arriving exactly at `clock = trial_end = 86400` finds no machine, yet the
disqualified flag stays `false` (the code tests `job.timestamp >
self.trial`, strictly), and the failed job is NOT pending afterwards — the
queue is empty, the job having been popped and dropped. -/
theorem c3_counterexample :
    (Spring.runEvents c3Events Spring.initState []).map
      (fun p => (p.1.overwait, (p.1.jobs Spring.SCat.general).map (fun j => j.ts),
        p.1.time, p.1.trial, p.1.billed)) = some (false, [], 86400, some 86400, 0) := by
  decide

/-- C3 amended: when no machine qualifies for a popped job, (i) the
src/evaluator.py engine — for every possible random draw — drops the job
(the state is unchanged except `overwait`), charges nothing, and sets
`overwait = (job.timestamp > trial_end)`, with the job's own timestamp and
a STRICT comparison; (ii) the 2013-fall engine sets `overwait =
(job.timestamp >= trial_end)` and exits the process immediately when that
holds, otherwise it drops the job, charges nothing and clears `overwait`;
(iii) once `overwait` is set, the spring drain returns the sentinel -1
(processing the empty queues and the machine-termination passes cannot
clear it). -/
theorem c3_amended_no_machine_behaviour :
    (∀ (c : ℕ) (s : State Spring.SCat) (cat : Spring.SCat) (job : Job) (tr : ℤ),
      s.trial = some tr → s.machines cat ≠ [] →
      (∀ m ∈ s.machines cat, m.is_active (job.ts + Spring.MAX_QUEUE_TIME) = false) →
      Spring.dispatchOne c s cat job = some { s with overwait := decide (tr < job.ts) })
    ∧ (∀ (s : State Fall2013.Cat) (cat : Fall2013.Cat) (job : Job) (tr : ℤ),
        s.trial = some tr →
        Fall2013.findBestFree job (s.machines cat) 0 none = none →
        Fall2013.findBestPenalty job (s.machines cat) 0 none = none →
        Fall2013.dispatchOne s cat job =
          (if tr ≤ job.ts then none else some { s with overwait := false }))
    ∧ (∀ (s : State Spring.SCat) (rnds : List ℕ),
        s.overwait = true → (∀ c, s.jobs c = []) →
        Spring.evaluate s rnds = some (-1)) := by
  refine ⟨?_, ?_, ?_⟩
  · intro c s cat job tr htr hne hall
    unfold Spring.dispatchOne
    dsimp only
    rw [if_neg (fun h0 => hne (List.length_eq_zero.mp h0))]
    have hrot : Spring.findFirstActive (job.ts + Spring.MAX_QUEUE_TIME)
        ((s.machines cat).drop (c % (s.machines cat).length) ++
          (s.machines cat).take (c % (s.machines cat).length)) 0 = none := by
      apply Spring.findFirstActive_none
      intro m hm
      rcases List.mem_append.mp hm with h1 | h1
      · exact hall m (List.drop_subset _ _ h1)
      · exact hall m (List.take_subset _ _ h1)
    rw [hrot]
    rw [htr]
    rfl
  · intro s cat job tr htr h1 h2
    unfold Fall2013.dispatchOne
    rw [h1, h2]
    dsimp only
    simp only [geTrial, htr]
    by_cases hge : tr ≤ job.ts
    · rw [if_pos (by simpa using hge), if_pos hge]
    · rw [if_neg (by simpa using hge), if_neg hge]
  · intro s rnds how hjobs
    have hpe : Spring.process_events Spring.SCat.general s rnds = some (s, rnds) := by
      unfold Spring.process_events
      rw [hjobs Spring.SCat.general]
      rfl
    unfold Spring.evaluate
    rw [Spring.evalCats, hpe]
    dsimp only
    rw [if_pos (by
      rw [(drainLoop_fields Spring.SCat.general
        ((s.machines Spring.SCat.general).length) s 0).2.2.2]
      exact how)]

/-- Witness for C3's amended statement: the 2013-fall no-machine arm at
`c6State` (whose only machine is still booting at job time 0) with a job
at timestamp 0 and `trial = 0`: `0 >= 0` holds, so the engine exits. -/
theorem c3_witness :
    Fall2013.dispatchOne c6State Fall2013.Cat.default ⟨0, 1⟩ = none := by
  have h := c3_amended_no_machine_behaviour.2.1 c6State Fall2013.Cat.default
    ⟨0, 1⟩ 0 rfl (by decide) (by decide)
  simpa using h

end ScaleContest
